import Mathlib

/-
Verification of the layout engine of draw_exons.py.

The drawing primitives (PIL rectangles, lines, text) are external
collaborators; they are modelled as an explicit list of draw operations.
Python floats are modelled as exact rationals, Python ints as ℤ, and the
Python builtin int() (truncation toward zero) as pyInt below.  Fallible
Python code (ZeroDivisionError, ValueError from min of an empty sequence,
IndexError, NameError) is modelled with Except.
-/

/-- RGB colour triple, as used for fill and outline colours. -/
abbrev Colour := ℤ × ℤ × ℤ

/-- The classes of Python exception the layout code can raise. -/
inductive PyErr where
  | valueError
  | zeroDivisionError
  | indexError
  | nameError
deriving DecidableEq, Repr

instance {ε α : Type} [DecidableEq ε] [DecidableEq α] : DecidableEq (Except ε α)
  | .error e, .error f =>
    if h : e = f then isTrue (by rw [h])
    else isFalse (fun hh => h (by injection hh))
  | .error _, .ok _ => isFalse (fun hh => Except.noConfusion hh)
  | .ok _, .error _ => isFalse (fun hh => Except.noConfusion hh)
  | .ok a, .ok b =>
    if h : a = b then isTrue (by rw [h])
    else isFalse (fun hh => h (by injection hh))

/-- The Python builtin int() applied to a float: truncation toward zero. -/
def pyInt (q : ℚ) : ℤ := if q < 0 then ⌈q⌉ else ⌊q⌋

/-- The coordinate mapper embedded in CDS.make_exons: a source coordinate c in
the interval from mn to mn + rng is sent to bx1 + int(((c - mn) / rng) * w). -/
def mapCoord (bx1 w : ℚ) (mn rng c : ℤ) : ℚ :=
  bx1 + (pyInt ((((c : ℚ) - (mn : ℚ)) / (rng : ℚ)) * w) : ℚ)

/-- One exon rectangle (class Exon of draw_exons.py, minus the canvas). -/
structure Exon where
  x1 : ℚ
  x2 : ℚ
  y : ℚ
  height : ℚ
  fill : Colour
  outline : Colour
  linewidth : ℤ
deriving DecidableEq, Repr

/-- One CDS track (class CDS of draw_exons.py, minus the canvas). -/
structure CDS where
  cds_id : Option String
  exon_coords : List (ℤ × ℤ)
  x1 : ℚ
  x2 : ℚ
  y : ℚ
  height : ℚ
  width : ℚ
  fill : Colour
  outline : Colour
  linewidth : ℤ
  exons : List Exon
deriving DecidableEq, Repr

/-- CDS.__init__: stores the arguments, sets width = x2 - x1 and exons = []. -/
def CDS.init (cds_id : Option String) (exon_coords : List (ℤ × ℤ))
    (x1 x2 y height : ℚ) (fill outline : Colour) (linewidth : ℤ) : CDS :=
  { cds_id := cds_id, exon_coords := exon_coords, x1 := x1, x2 := x2, y := y,
    height := height, width := x2 - x1, fill := fill, outline := outline,
    linewidth := linewidth, exons := [] }

/-- The flat list of every start and end coordinate of a list of intervals
(the all_coords comprehension of CDS.make_exons). -/
def flatCoords (l : List (ℤ × ℤ)) : List ℤ :=
  l.flatMap (fun p => [p.1, p.2])

/-- The Exon built for one interval inside the loop of CDS.make_exons. -/
def CDS.mapped_exon (c : CDS) (min_x range_x : ℤ) (p : ℤ × ℤ) : Exon :=
  { x1 := mapCoord c.x1 c.width min_x range_x p.1,
    x2 := mapCoord c.x1 c.width min_x range_x p.2,
    y := c.y, height := c.height, fill := c.fill, outline := c.outline,
    linewidth := c.linewidth }

/-- CDS.make_exons: takes min and max of all coordinates (ValueError when the
interval list is empty), then appends one mapped Exon per interval to the
existing self.exons list.  When range_x is zero the first loop iteration
divides by zero, hence ZeroDivisionError whenever the loop runs at all (the
interval list is nonempty exactly when all_coords is nonempty). -/
def CDS.make_exons (c : CDS) : Except PyErr CDS :=
  match flatCoords c.exon_coords with
  | [] => .error .valueError
  | a :: rest =>
    let min_x := rest.foldl min a
    let max_x := rest.foldl max a
    let range_x := max_x - min_x
    if range_x = 0 then .error .zeroDivisionError
    else .ok { c with exons := c.exons ++ c.exon_coords.map (c.mapped_exon min_x range_x) }

/-- One primitive operation on the external raster canvas. -/
inductive DrawOp where
  | rect (x1 y1 x2 y2 : ℚ) (fill outline : Colour) (w : ℤ)
  | line (x1 y1 x2 y2 : ℚ) (colour : Colour) (w : ℤ)
deriving DecidableEq, Repr

/-- Exon.draw: one rectangle from (x1, y) to (x2, y + height). -/
def Exon.draw (e : Exon) : DrawOp :=
  .rect e.x1 e.y e.x2 (e.y + e.height) e.fill e.outline e.linewidth

/-- CDS.draw_exons: draws every exon of the list, in list order. -/
def CDS.draw_exons (c : CDS) : List DrawOp :=
  c.exons.map Exon.draw

/-- The two line segments CDS.draw_lines emits between one adjacent pair of
exons: from the right edge of the earlier exon up to the apex, then from the
apex down to the left edge of the later exon. -/
def CDS.intron_lines (c : CDS) (a b : Exon) : List DrawOp :=
  let x1 := a.x2
  let x2 := b.x1
  let midpoint : ℤ := pyInt (x1 + (x2 - x1) / 2)
  let y : ℤ := pyInt (c.y + c.height / 2)
  let y_midpoint : ℚ := (y : ℚ) - c.height / 4
  [ .line x1 (y : ℚ) (midpoint : ℚ) y_midpoint c.outline c.linewidth,
    .line (midpoint : ℚ) y_midpoint x2 (y : ℚ) c.outline c.linewidth ]

/-- The loop of CDS.draw_lines over a given exon list: one intron marker per
adjacent pair (indices i - 1 and i for i from 1 to the length). -/
def CDS.lines_of (c : CDS) (es : List Exon) : List DrawOp :=
  (es.zip es.tail).flatMap (fun p => c.intron_lines p.1 p.2)

/-- CDS.draw_lines: the intron markers of the current self.exons list. -/
def CDS.draw_lines (c : CDS) : List DrawOp :=
  c.lines_of c.exons

/-- CDS.draw: make_exons, then draw_exons, then draw_lines, appending the
emitted operations to the given canvas. -/
def CDS.draw (c : CDS) (canv : List DrawOp) : Except PyErr (CDS × List DrawOp) :=
  (c.make_exons).map (fun d => (d, canv ++ d.draw_exons ++ d.draw_lines))

/-- CDS.redraw: replaces the canvas with a fresh blank one of the same size,
then runs make_exons, draw_exons and draw_lines on the blank canvas.  The
prior canvas content is discarded; the CDS state (in particular self.exons)
is kept. -/
def CDS.redraw (c : CDS) (_canv : List DrawOp) : Except PyErr (CDS × List DrawOp) :=
  CDS.draw c []

/-- Caller-side override of the fill colour of the exon at one index, as in
example_highlight_exon.py (cds.exons[2].fill = ...). -/
def setFill (l : List Exon) (i : Nat) (col : Colour) : List Exon :=
  match l.get? i with
  | some e => l.set i { e with fill := col }
  | none => l

/-- A group of CDS tracks (class CDS_group of draw_exons.py, minus the
canvas).  The cdss list of the constructor is not a field here: in Python it
is a mutable default argument, evaluated once, so every group constructed
without an explicit cdss argument shares one list object; the model passes
that list explicitly to make_cdss and draw. -/
structure CDS_group where
  cds_coords : List (List (ℤ × ℤ))
  cds_ids : List String
  cds_height : ℤ
  cds_spacing : ℤ
  width : ℤ
  margin : ℤ
  fill_colours : List Colour
  outline_colours : List Colour
  linewidth : ℤ
deriving DecidableEq, Repr

/-- The canvas height computed in CDS_group.__init__. -/
def CDS_group.heightOf (g : CDS_group) : ℤ :=
  g.cds_height * g.cds_coords.length
    + g.cds_spacing * ((g.cds_coords.length : ℤ) - 1)
    + 2 * g.margin

/-- One iteration of the loop of CDS_group.make_cdss, for track index i with
interval list exon_coords, given the global min, max and range.  Failures in
source order: ValueError from min over an empty per-track coordinate list,
then ZeroDivisionError from the x1 formula when the global range is zero,
then IndexError from the positional colour and identifier lookups. -/
def CDS_group.mkTrack (g : CDS_group) (min_x max_x range_x : ℤ) (i : Nat)
    (exon_coords : List (ℤ × ℤ)) : Except PyErr CDS :=
  match flatCoords exon_coords with
  | [] => .error .valueError
  | a :: rest =>
    let min_coord := rest.foldl min a
    let max_coord := rest.foldl max a
    if range_x = 0 then .error .zeroDivisionError
    else
      let width_less_margin : ℚ := (g.width : ℚ) - 2 * (g.margin : ℚ)
      let x1 : ℚ := (g.margin : ℚ)
        + (((min_coord : ℚ) - (min_x : ℚ)) / (range_x : ℚ)) * width_less_margin
      let x2 : ℚ := (g.width : ℚ) - (g.margin : ℚ)
        - (((max_x : ℚ) - (max_coord : ℚ)) / (range_x : ℚ)) * width_less_margin
      let y : ℤ := g.margin + (i : ℤ) * g.cds_height + (i : ℤ) * g.cds_spacing
      match g.fill_colours.get? i with
      | none => .error .indexError
      | some fill_colour =>
        match g.outline_colours.get? i with
        | none => .error .indexError
        | some outline_colour =>
          match (if g.cds_ids ≠ [] then (g.cds_ids.get? i).map some else some none) with
          | none => .error .indexError
          | some cds_id =>
            .ok (CDS.init cds_id exon_coords x1 x2 (y : ℚ) (g.cds_height : ℚ)
              fill_colour outline_colour g.linewidth)

/-- CDS_group.make_cdss: flattens every coordinate of every track (ValueError
when there is none), takes the global min, max and range, then appends one
CDS per track to the given cdss list (self.cdss, the possibly shared list)
and returns it. -/
def CDS_group.make_cdss (g : CDS_group) (cdss0 : List CDS) : Except PyErr (List CDS) :=
  match g.cds_coords.flatMap flatCoords with
  | [] => .error .valueError
  | a :: rest =>
    let min_x := rest.foldl min a
    let max_x := rest.foldl max a
    let range_x := max_x - min_x
    g.cds_coords.enum.foldlM
      (fun acc ic => (g.mkTrack min_x max_x range_x ic.1 ic.2).map (fun c => acc ++ [c]))
      cdss0

/-- add_margin of draw_exons.py, restricted to the image dimensions: the new
image is w + right + left wide and h + top + bottom high (no clamping, so a
negative margin shrinks the image). -/
def add_margin (w h top right bottom left : ℤ) : ℤ × ℤ :=
  (w + right + left, h + top + bottom)

/-- The fixed horizontal label offset of CDS_group.draw:
label_x = width - 0.8 * margin. -/
def CDS_group.label_x (g : CDS_group) : ℚ :=
  (g.width : ℚ) - (4 * (g.margin : ℚ)) / 5

/-- The running maximum of measured label widths over the track loop of
CDS_group.draw: the width right - left of the text bounding box of each
identifier, for tracks with an identifier, when labels were requested;
max_label_width starts at 0.  Text measurement is the external font
collaborator, supplied as the total function measure. -/
def CDS_group.max_label_width (measure : String → ℤ) (label : Bool)
    (cdss : List CDS) : ℤ :=
  cdss.foldl
    (fun acc c =>
      match c.cds_id with
      | some s => if label then max acc (measure s) else acc
      | none => acc)
    0

/-- CDS_group.draw, modelled on the image dimensions it produces.  It runs
make_cdss, then draws every track of the resulting self.cdss list in order
(each cds.draw runs make_exons, whose errors propagate; the emitted raster
operations go to the external canvas and do not affect the dimensions),
measuring labels along the way.  If labels were requested it then reads
label_x, which is unbound when no loop iteration drew a label (NameError),
computes the remaining margin with int() and grows the canvas on the right
by margin - remaining via add_margin.  Since text measurement is total, the
maximum measured width is computed by the separate pure fold
max_label_width. -/
def CDS_group.draw (g : CDS_group) (measure : String → ℤ) (label : Bool)
    (cdss0 : List CDS) : Except PyErr (ℤ × ℤ) := do
  let cdss ← g.make_cdss cdss0
  let _ ← cdss.foldlM (fun x c => (c.make_exons).map (fun _ => x)) ()
  let mlw := CDS_group.max_label_width measure label cdss
  if label then
    if (cdss.filter (fun c => c.cds_id.isSome)) = [] then .error .nameError
    else
      let remaining : ℤ := pyInt ((g.width : ℚ) - (g.label_x + (mlw : ℚ)))
      .ok (add_margin g.width g.heightOf 0 (g.margin - remaining) 0 0)
  else .ok (g.width, g.heightOf)

/-- CDS.add_exon: appends one externally built exon to the track. -/
def CDS.add_exon (c : CDS) (e : Exon) : CDS :=
  { c with exons := c.exons ++ [e] }

/-- The fill colour of a rectangle operation, none for a line. -/
def DrawOp.fillOf : DrawOp → Option Colour
  | .rect _ _ _ _ f _ _ => some f
  | .line _ _ _ _ _ _ => none

/-- Whether an operation is a rectangle with exactly the given corners. -/
def rectMatches (x1 y1 x2 y2 : ℚ) (op : DrawOp) : Bool :=
  match op with
  | .rect a b c d _ _ _ => a == x1 && b == y1 && c == x2 && d == y2
  | .line _ _ _ _ _ _ => false

/-- The fill colour a viewer sees at a given rectangle: the fill of the last
rectangle operation drawn with exactly those corners (later operations cover
earlier ones on the raster). -/
def lastFillAt (ops : List DrawOp) (x1 y1 x2 y2 : ℚ) : Option Colour :=
  ((ops.filter (rectMatches x1 y1 x2 y2)).getLast?).bind DrawOp.fillOf

/-- The expansion amount exactly as the spec sentence words it:
max(0, margin - (canvas_width - (label_x + max_label_width))), with no
truncation.  Stated for comparison with the amount the source computes. -/
def spec_expansion (g : CDS_group) (mlw : ℤ) : ℚ :=
  max 0 ((g.margin : ℚ) - ((g.width : ℚ) - (g.label_x + (mlw : ℚ))))

/-- The single CDS of example_highlight_exon.py, at scale factor 4: the five
exon intervals of the spec example, pixel box x from 400 to 2800, y 300,
height 200. -/
def exHighlightCDS : CDS :=
  CDS.init none [(80, 420), (600, 770), (900, 1220), (1500, 1730), (1800, 1900)]
    400 2800 300 200 (141, 211, 199) (0, 0, 0) 8

/-- The highlight-one-exon scenario of example_highlight_exon.py: draw the
CDS, recolour the exon at index 2, then redraw. -/
def exHighlightRedraw : Except PyErr (CDS × List DrawOp) := do
  let p ← exHighlightCDS.draw []
  let c2 : CDS := { p.1 with exons := setFill p.1.exons 2 (190, 186, 218) }
  c2.redraw p.2

/-- A track whose interval list is not in ascending start order. -/
def exUnsorted : CDS :=
  CDS.init none [(600, 770), (80, 420)] 0 100 0 10 (0, 0, 0) (0, 0, 0) 1

/-- A small sorted two-exon track (pixel box 0 to 8, height 8). -/
def exOddMid : CDS :=
  CDS.init none [(0, 1), (2, 3)] 0 8 0 8 (1, 1, 1) (0, 0, 0) 1

/-- The track state after laying out exOddMid once. -/
def exOddMidLaid : CDS :=
  (exOddMid.make_exons.toOption).getD exOddMid

/-- The track state after laying out exOddMid a second time. -/
def exOddMidLaidTwice : CDS :=
  (exOddMidLaid.make_exons.toOption).getD exOddMid

/-- A one-track group with margin 51 (so that 0.8 * margin is fractional)
and one labelled track. -/
def exG51 : CDS_group :=
  { cds_coords := [[(0, 10)]], cds_ids := ["A"], cds_height := 50,
    cds_spacing := 50, width := 800, margin := 51, fill_colours := [(1, 1, 1)],
    outline_colours := [(0, 0, 0)], linewidth := 2 }

/-- A one-track group with margin 50 and one labelled track, drawn with a
label measuring 100 pixels, wider than the margin. -/
def exG50 : CDS_group :=
  { cds_coords := [[(0, 10)]], cds_ids := ["AB"], cds_height := 50,
    cds_spacing := 50, width := 800, margin := 50, fill_colours := [(1, 1, 1)],
    outline_colours := [(0, 0, 0)], linewidth := 2 }

/-- The track list exG50.make_cdss builds from an empty cdss list. -/
def exG50cdss : List CDS :=
  (exG50.make_cdss [] |>.toOption).getD []

/-- A group whose single track has one single-point interval. -/
def exGdeg : CDS_group :=
  { cds_coords := [[(7, 7)]], cds_ids := [], cds_height := 50,
    cds_spacing := 50, width := 800, margin := 50, fill_colours := [(1, 1, 1)],
    outline_colours := [(0, 0, 0)], linewidth := 2 }

/-- A first one-track group, used for the shared default cdss scenario. -/
def exG1 : CDS_group :=
  { cds_coords := [[(0, 4), (6, 10)]], cds_ids := [], cds_height := 50,
    cds_spacing := 50, width := 800, margin := 50, fill_colours := [(1, 1, 1)],
    outline_colours := [(0, 0, 0)], linewidth := 2 }

/-- The track list exG1.make_cdss builds from an empty cdss list. -/
def exG1cdss : List CDS :=
  (exG1.make_cdss [] |>.toOption).getD []

theorem pyInt_zero : pyInt 0 = 0 := by
  simp [pyInt]

theorem pyInt_of_nonneg {q : ℚ} (h : 0 ≤ q) : pyInt q = ⌊q⌋ := by
  simp [pyInt, not_lt.mpr h]

theorem pyInt_intCast (n : ℤ) : pyInt (n : ℚ) = n := by
  unfold pyInt
  split <;> simp

theorem pyInt_mono {q r : ℚ} (h0 : 0 ≤ q) (h : q ≤ r) : pyInt q ≤ pyInt r := by
  rw [pyInt_of_nonneg h0, pyInt_of_nonneg (le_trans h0 h)]
  exact Int.floor_le_floor h

theorem pyInt_le_intCast {q : ℚ} {z : ℤ} (h : q ≤ (z : ℚ)) : pyInt q ≤ z := by
  unfold pyInt
  split
  · exact Int.ceil_le.mpr h
  · calc ⌊q⌋ ≤ ⌊(z : ℚ)⌋ := Int.floor_le_floor h
      _ = z := Int.floor_intCast z

theorem foldl_min_le_init (l : List ℤ) (a : ℤ) : l.foldl min a ≤ a := by
  induction l generalizing a with
  | nil => exact le_refl a
  | cons b t ih => exact le_trans (ih (min a b)) (min_le_left a b)

theorem foldl_min_le_mem {l : List ℤ} {x : ℤ} (a : ℤ) (h : x ∈ l) : l.foldl min a ≤ x := by
  induction l generalizing a with
  | nil => cases h
  | cons b t ih =>
    rcases List.mem_cons.mp h with rfl | hx
    · exact le_trans (foldl_min_le_init t (min a x)) (min_le_right a x)
    · exact ih (min a b) hx

theorem init_le_foldl_max (l : List ℤ) (a : ℤ) : a ≤ l.foldl max a := by
  induction l generalizing a with
  | nil => exact le_refl a
  | cons b t ih => exact le_trans (le_max_left a b) (ih (max a b))

theorem mem_le_foldl_max {l : List ℤ} {x : ℤ} (a : ℤ) (h : x ∈ l) : x ≤ l.foldl max a := by
  induction l generalizing a with
  | nil => cases h
  | cons b t ih =>
    rcases List.mem_cons.mp h with rfl | hx
    · exact le_trans (le_max_right a x) (init_le_foldl_max t (max a x))
    · exact ih (max a b) hx

theorem foldl_min_all_eq {l : List ℤ} {a : ℤ} (h : ∀ x ∈ l, x = a) : l.foldl min a = a := by
  induction l with
  | nil => rfl
  | cons b t ih =>
    have hb : b = a := h b (List.mem_cons_self b t)
    subst hb
    simp only [List.foldl_cons, min_self]
    exact ih (fun x hx => h x (List.mem_cons_of_mem b hx))

theorem foldl_max_all_eq {l : List ℤ} {a : ℤ} (h : ∀ x ∈ l, x = a) : l.foldl max a = a := by
  induction l with
  | nil => rfl
  | cons b t ih =>
    have hb : b = a := h b (List.mem_cons_self b t)
    subst hb
    simp only [List.foldl_cons, max_self]
    exact ih (fun x hx => h x (List.mem_cons_of_mem b hx))

theorem mapCoord_self (bx1 w : ℚ) (mn rng : ℤ) : mapCoord bx1 w mn rng mn = bx1 := by
  simp [mapCoord, pyInt_zero]

theorem mapCoord_top (bx1 w : ℚ) {mn mx : ℤ} (h : mn < mx) :
    mapCoord bx1 w mn (mx - mn) mx = bx1 + (pyInt w : ℚ) := by
  have hne : ((mx - mn : ℤ) : ℚ) ≠ 0 := by
    rw [Int.cast_ne_zero]
    omega
  unfold mapCoord
  rw [show ((mx : ℚ) - (mn : ℚ)) = ((mx - mn : ℤ) : ℚ) by push_cast; ring,
    div_self hne, one_mul]

theorem mapCoord_mono (bx1 w : ℚ) {mn rng c d : ℤ} (hr : 0 < rng) (hw : 0 ≤ w)
    (hc : mn ≤ c) (hcd : c ≤ d) :
    mapCoord bx1 w mn rng c ≤ mapCoord bx1 w mn rng d := by
  unfold mapCoord
  have hrq : (0 : ℚ) < (rng : ℚ) := by exact_mod_cast hr
  have h0 : (0 : ℚ) ≤ (((c : ℚ) - (mn : ℚ)) / (rng : ℚ)) * w :=
    mul_nonneg (div_nonneg (by exact_mod_cast sub_nonneg.mpr hc) (le_of_lt hrq)) hw
  have hle : (((c : ℚ) - (mn : ℚ)) / (rng : ℚ)) * w
      ≤ (((d : ℚ) - (mn : ℚ)) / (rng : ℚ)) * w := by
    apply mul_le_mul_of_nonneg_right _ hw
    apply div_le_div_of_nonneg_right _ (le_of_lt hrq)
    · exact_mod_cast sub_le_sub_right (by exact_mod_cast hcd : (c : ℚ) ≤ (d : ℚ)) (mn : ℚ)
  have := pyInt_mono h0 hle
  have hq : ((pyInt ((((c : ℚ) - (mn : ℚ)) / (rng : ℚ)) * w) : ℤ) : ℚ)
      ≤ ((pyInt ((((d : ℚ) - (mn : ℚ)) / (rng : ℚ)) * w) : ℤ) : ℚ) := by
    exact_mod_cast this
  linarith

theorem lines_of_nil (c : CDS) : c.lines_of [] = [] := rfl

theorem lines_of_single (c : CDS) (e : Exon) : c.lines_of [e] = [] := rfl

theorem lines_of_cons_cons (c : CDS) (a b : Exon) (t : List Exon) :
    c.lines_of (a :: b :: t) = c.intron_lines a b ++ c.lines_of (b :: t) := by
  simp [CDS.lines_of]

theorem lines_of_length (c : CDS) :
    ∀ es : List Exon, (c.lines_of es).length = 2 * (es.length - 1)
  | [] => by simp [lines_of_nil]
  | [e] => by simp [lines_of_single]
  | a :: b :: t => by
    have ih := lines_of_length c (b :: t)
    rw [lines_of_cons_cons]
    simp only [List.length_append, List.length_cons] at ih ⊢
    have hlen : (c.intron_lines a b).length = 2 := by simp [CDS.intron_lines]
    omega

theorem lines_of_get (c : CDS) :
    ∀ (es : List Exon) (i : Nat) (a b : Exon),
      es.get? i = some a → es.get? (i + 1) = some b →
      (c.lines_of es).get? (2 * i) = (c.intron_lines a b).get? 0
      ∧ (c.lines_of es).get? (2 * i + 1) = (c.intron_lines a b).get? 1
  | [], i, a, b, ha, _ => by simp at ha
  | [e], i, a, b, _, hb => by
    rcases i with _ | j <;> simp at hb
  | x :: y :: t, 0, a, b, ha, hb => by
    simp only [List.get?_cons_zero, Option.some.injEq] at ha
    simp only [List.get?_cons_succ, List.get?_cons_zero, Option.some.injEq] at hb
    subst ha
    subst hb
    rw [lines_of_cons_cons]
    constructor
    · simp [CDS.intron_lines]
    · simp [CDS.intron_lines]
  | x :: y :: t, i + 1, a, b, ha, hb => by
    have ih := lines_of_get c (y :: t) i a b
      (by simpa using ha) (by simpa using hb)
    rw [lines_of_cons_cons]
    have h2 : c.intron_lines x y = [(c.intron_lines x y).get ⟨0, by simp [CDS.intron_lines]⟩,
        (c.intron_lines x y).get ⟨1, by simp [CDS.intron_lines]⟩] := by
      simp [CDS.intron_lines]
    constructor
    · rw [show 2 * (i + 1) = ((2 * i) + 1) + 1 by ring, h2]
      simpa using ih.1
    · rw [show 2 * (i + 1) + 1 = ((2 * i + 1) + 1) + 1 by ring, h2]
      simpa using ih.2

theorem except_map_error {γ δ : Type} (g : γ → δ) (e : PyErr) :
    (Except.error e : Except PyErr γ).map g = .error e := rfl

theorem except_map_ok {γ δ : Type} (g : γ → δ) (v : γ) :
    (Except.ok v : Except PyErr γ).map g = .ok (g v) := rfl

theorem foldlM_snoc_shift {α γ : Type} (f : α → Except PyErr γ) :
    ∀ (l : List α) (acc : List γ),
      l.foldlM (fun a x => (f x).map (fun c => a ++ [c])) acc
        = (l.foldlM (fun a x => (f x).map (fun c => a ++ [c])) []).map
            (fun r => acc ++ r)
  | [], acc => by
    have h1 : ∀ (l0 : List γ),
        List.foldlM (fun a x => (f x).map (fun c => a ++ [c])) l0 ([] : List α)
          = .ok l0 := fun _ => rfl
    rw [h1, h1, except_map_ok, List.append_nil]
  | x :: xs, acc => by
    have hcons : ∀ (a0 : List γ),
        List.foldlM (fun a x => (f x).map (fun c => a ++ [c])) a0 (x :: xs)
          = ((f x).map (fun c => a0 ++ [c]) >>= fun a1 =>
              List.foldlM (fun a x => (f x).map (fun c => a ++ [c])) a1 xs) :=
      fun _ => rfl
    cases hf : f x with
    | error e =>
      rw [hcons, hcons, hf]
      rfl
    | ok cval =>
      have ih1 := foldlM_snoc_shift f xs (acc ++ [cval])
      have ih2 := foldlM_snoc_shift f xs ([] ++ [cval])
      rw [hcons, hcons, hf, except_map_ok, except_map_ok]
      have hbind : ∀ (v : List γ) (g : List γ → Except PyErr (List γ)),
          (Except.ok v >>= g) = g v := fun _ _ => rfl
      rw [hbind, hbind, ih1, ih2]
      cases hrest : xs.foldlM (fun a x => (f x).map (fun c => a ++ [c])) [] with
      | error e => rw [except_map_error, except_map_error, except_map_error]
      | ok r =>
        rw [except_map_ok, except_map_ok, except_map_ok]
        simp [List.append_assoc]

theorem make_cdss_acc (g : CDS_group) (acc : List CDS) :
    g.make_cdss acc = (g.make_cdss []).map (fun r => acc ++ r) := by
  unfold CDS_group.make_cdss
  cases h : g.cds_coords.flatMap flatCoords with
  | nil => simp [Except.map]
  | cons a rest =>
    exact foldlM_snoc_shift
      (fun ic => g.mkTrack (rest.foldl min a) (rest.foldl max a)
        (rest.foldl max a - rest.foldl min a) ic.1 ic.2)
      g.cds_coords.enum acc

theorem max_label_width_nonneg (measure : String → ℤ) (label : Bool)
    (cdss : List CDS) : 0 ≤ CDS_group.max_label_width measure label cdss := by
  unfold CDS_group.max_label_width
  have h : ∀ (l : List CDS) (a : ℤ), 0 ≤ a →
      0 ≤ l.foldl (fun acc c =>
        match c.cds_id with
        | some s => if label then max acc (measure s) else acc
        | none => acc) a := by
    intro l
    induction l with
    | nil => intro a ha; exact ha
    | cons c t ih =>
      intro a ha
      apply ih
      cases hc : c.cds_id with
      | none =>
        simp only [hc]
        exact ha
      | some s =>
        by_cases hl : label = true
        · simp only [hc, hl, if_true]
          exact le_trans ha (le_max_left a (measure s))
        · simp only [hc, hl, if_false]
          exact ha
  exact h cdss 0 (le_refl 0)

theorem flatCoords_cons (p : ℤ × ℤ) (t : List (ℤ × ℤ)) :
    flatCoords (p :: t) = p.1 :: p.2 :: flatCoords t := by
  simp [flatCoords]

theorem fst_mem_flatCoords {l : List (ℤ × ℤ)} {p : ℤ × ℤ} (h : p ∈ l) :
    p.1 ∈ flatCoords l := by
  unfold flatCoords
  exact List.mem_flatMap.mpr ⟨p, h, by simp⟩

theorem flatCoords_all_eq {l : List (ℤ × ℤ)} {k : ℤ}
    (h : ∀ p ∈ l, p.1 = k ∧ p.2 = k) :
    ∀ x ∈ flatCoords l, x = k := by
  intro x hx
  rcases List.mem_flatMap.mp hx with ⟨p, hp, hxp⟩
  rcases h p hp with ⟨h1, h2⟩
  simp only [List.mem_cons, List.not_mem_nil, or_false] at hxp
  rcases hxp with hh | hh
  · rw [hh]; exact h1
  · rw [hh]; exact h2

theorem make_exons_eq (c : CDS) (a : ℤ) (rest : List ℤ)
    (h : flatCoords c.exon_coords = a :: rest)
    (hne : rest.foldl max a ≠ rest.foldl min a) :
    c.make_exons = .ok { c with
      exons := c.exons ++ c.exon_coords.map
        (c.mapped_exon (rest.foldl min a) (rest.foldl max a - rest.foldl min a)) } := by
  unfold CDS.make_exons
  rw [h]
  simp [sub_eq_zero, hne]

theorem make_exons_zero_range (c : CDS) (a : ℤ) (rest : List ℤ)
    (h : flatCoords c.exon_coords = a :: rest)
    (heq : rest.foldl max a = rest.foldl min a) :
    c.make_exons = .error .zeroDivisionError := by
  unfold CDS.make_exons
  rw [h]
  simp [sub_eq_zero, heq]

theorem make_exons_empty (c : CDS) (h : c.exon_coords = []) :
    c.make_exons = .error .valueError := by
  unfold CDS.make_exons
  rw [h]
  rfl

theorem mkTrack_zero_range (g : CDS_group) (min_x max_x : ℤ) (i : Nat)
    (l : List (ℤ × ℤ)) (hl : l ≠ []) :
    g.mkTrack min_x max_x 0 i l = .error .zeroDivisionError := by
  obtain ⟨p, t, rfl⟩ := List.exists_cons_of_ne_nil hl
  unfold CDS_group.mkTrack
  rw [flatCoords_cons]
  simp

theorem foldlM_cons_error {α γ : Type} (f : List γ → α → Except PyErr (List γ))
    (acc : List γ) (x : α) (xs : List α) (e : PyErr) (h : f acc x = .error e) :
    List.foldlM f acc (x :: xs) = .error e := by
  have hc : List.foldlM f acc (x :: xs)
      = (f acc x >>= fun a => List.foldlM f a xs) := rfl
  rw [hc, h]
  rfl

set_option maxRecDepth 4000

/-- C1: for every track source range with min_src < max_src and every
destination pixel span from bx1 to bx2, the mapper sends a coordinate c to
bx1 + int(((c - min_src) / (max_src - min_src)) * (bx2 - bx1)); this mapping
is monotone non-decreasing in c on coordinates at or above min_src, min_src
lands exactly on bx1, max_src lands on bx2 within integer truncation (at
most one pixel below bx2, and exactly bx2 for an integral span); laying the
five spec intervals into the pixel box from x 400 to 2800 places the first
exon left edge at 400 and the last exon right edge at 2800. -/
theorem C1_mapping_linear_monotone (bx1 bx2 : ℚ) (mn mx c d : ℤ)
    (hbox : bx1 ≤ bx2) (hr : mn < mx) (hc : mn ≤ c) (hcd : c ≤ d) :
    mapCoord bx1 (bx2 - bx1) mn (mx - mn) c ≤ mapCoord bx1 (bx2 - bx1) mn (mx - mn) d
    ∧ mapCoord bx1 (bx2 - bx1) mn (mx - mn) mn = bx1
    ∧ mapCoord bx1 (bx2 - bx1) mn (mx - mn) mx ≤ bx2
    ∧ bx2 - 1 < mapCoord bx1 (bx2 - bx1) mn (mx - mn) mx
    ∧ (exHighlightCDS.make_exons).map
        (fun s => (s.exons.head?.map Exon.x1, s.exons.getLast?.map Exon.x2))
      = .ok (some 400, some 2800) := by
  have hw : (0 : ℚ) ≤ bx2 - bx1 := sub_nonneg.mpr hbox
  have hrng : 0 < mx - mn := by omega
  refine ⟨mapCoord_mono bx1 (bx2 - bx1) hrng hw hc hcd,
    mapCoord_self bx1 (bx2 - bx1) mn (mx - mn), ?_, ?_, ?_⟩
  · rw [mapCoord_top bx1 (bx2 - bx1) hr, pyInt_of_nonneg hw]
    have hfl := Int.floor_le (bx2 - bx1)
    linarith
  · rw [mapCoord_top bx1 (bx2 - bx1) hr, pyInt_of_nonneg hw]
    have hfl := Int.sub_one_lt_floor (bx2 - bx1)
    linarith
  · with_unfolding_all rfl

/-- C1 witness: the mapping facts at the concrete spec instance: source range
80 to 1900, pixel span 400 to 2800, coordinates 600 and 900. -/
theorem C1_mapping_linear_monotone_witness :
    mapCoord 400 (2800 - 400) 80 (1900 - 80) 600
        ≤ mapCoord 400 (2800 - 400) 80 (1900 - 80) 900
    ∧ mapCoord 400 (2800 - 400) 80 (1900 - 80) 80 = 400
    ∧ mapCoord 400 (2800 - 400) 80 (1900 - 80) 1900 ≤ 2800
    ∧ (2800 : ℚ) - 1 < mapCoord 400 (2800 - 400) 80 (1900 - 80) 1900
    ∧ (exHighlightCDS.make_exons).map
        (fun s => (s.exons.head?.map Exon.x1, s.exons.getLast?.map Exon.x2))
      = .ok (some 400, some 2800) :=
  C1_mapping_linear_monotone 400 2800 80 1900 600 900
    (by with_unfolding_all decide) (by decide) (by decide) (by decide)

/-- C5 (amended): a track with an empty interval list does not lay out
silently: make_exons raises (min of an empty sequence, a ValueError), so
zero exons are produced only together with that error; the connector loop on
a track with no laid-out exons produces the empty sequence with no error. -/
theorem C5_empty_interval_list (c d : CDS)
    (hc : c.exon_coords = []) (hd : d.exons = []) :
    c.make_exons = .error .valueError ∧ d.draw_lines = [] := by
  refine ⟨make_exons_empty c hc, ?_⟩
  unfold CDS.draw_lines
  rw [hd]
  rfl

/-- C5 counterexample: on the concrete track with an empty interval list,
make_exons raises a ValueError, against the claim that no error is raised. -/
theorem C5_counterexample :
    (CDS.init none [] 0 100 0 10 (0, 0, 0) (0, 0, 0) 1).make_exons
      = .error .valueError := by
  with_unfolding_all rfl

/-- C5 witness: the amended behaviour at concrete tracks. -/
theorem C5_empty_interval_list_witness :
    (CDS.init none [] 0 100 0 10 (255, 255, 255) (0, 0, 0) 1).make_exons
      = .error .valueError
    ∧ (CDS.init none [(1, 2)] 0 100 0 10 (255, 255, 255) (0, 0, 0) 1).draw_lines
      = [] :=
  C5_empty_interval_list _ _ rfl rfl

/-- C6 (amended): make_exons is not idempotent: a second call on the already
laid-out track appends a second equal copy of the mapped exon rectangles, so
after two calls the exon list equals the first-call list followed by itself
(the first-call prefix is preserved, the whole list is not). -/
theorem C6_second_call_appends (c c1 c2 : CDS)
    (h0 : c.exons = [])
    (h1 : c.make_exons = .ok c1)
    (h2 : c1.make_exons = .ok c2) :
    c2.exons = c1.exons ++ c1.exons := by
  cases hflat : flatCoords c.exon_coords with
  | nil =>
    unfold CDS.make_exons at h1
    rw [hflat] at h1
    cases h1
  | cons a rest =>
    by_cases hz : rest.foldl max a = rest.foldl min a
    · rw [make_exons_zero_range c a rest hflat hz] at h1
      cases h1
    · have hc1 : c1 = { c with exons := c.exons ++ (List.map
          (c.mapped_exon (List.foldl min a rest)
            (List.foldl max a rest - List.foldl min a rest)) c.exon_coords) } := by
        rw [make_exons_eq c a rest hflat hz] at h1
        exact (Except.ok.inj h1).symm
      have hflat1 : flatCoords c1.exon_coords = a :: rest := by
        rw [hc1]
        exact hflat
      rw [make_exons_eq c1 a rest hflat1 hz] at h2
      have hc2 := (Except.ok.inj h2).symm
      rw [hc2]
      have hexons : c1.exons = List.map
          (c.mapped_exon (List.foldl min a rest)
            (List.foldl max a rest - List.foldl min a rest)) c.exon_coords := by
        rw [hc1]
        show c.exons ++ _ = _
        rw [h0]
        exact List.nil_append _
      have hm : List.map (c1.mapped_exon (List.foldl min a rest)
            (List.foldl max a rest - List.foldl min a rest)) c1.exon_coords
          = c1.exons := by
        rw [hexons, hc1]
        simp [CDS.mapped_exon]
      show c1.exons ++ List.map (c1.mapped_exon (List.foldl min a rest)
          (List.foldl max a rest - List.foldl min a rest)) c1.exon_coords
        = c1.exons ++ c1.exons
      rw [hm]

/-- C6 counterexample: on the concrete two-interval track, the first call
produces two exons and the second call leaves four, so the exon sequence
after the second call is not the sequence the first call produced. -/
theorem C6_counterexample :
    exOddMid.make_exons = .ok exOddMidLaid
    ∧ exOddMidLaid.make_exons = .ok exOddMidLaidTwice
    ∧ exOddMidLaid.exons.length = 2
    ∧ exOddMidLaidTwice.exons.length = 4
    ∧ exOddMidLaidTwice.exons ≠ exOddMidLaid.exons := by
  refine ⟨?_, ?_, ?_, ?_, ?_⟩
  · with_unfolding_all rfl
  · with_unfolding_all rfl
  · with_unfolding_all rfl
  · with_unfolding_all rfl
  · intro h
    have hlen := congrArg List.length h
    have h4 : exOddMidLaidTwice.exons.length = 4 := by with_unfolding_all rfl
    have h2 : exOddMidLaid.exons.length = 2 := by with_unfolding_all rfl
    rw [h4, h2] at hlen
    cases hlen

/-- C6 witness: the appended-copy behaviour at the concrete track. -/
theorem C6_second_call_appends_witness :
    exOddMidLaidTwice.exons = exOddMidLaid.exons ++ exOddMidLaid.exons :=
  C6_second_call_appends exOddMid exOddMidLaid exOddMidLaidTwice rfl
    (by with_unfolding_all rfl) (by with_unfolding_all rfl)

/-- A concrete two-exon track assembled with add_exon, for exercising the
connector computation directly. -/
def exConnCDS : CDS :=
  ((CDS.init none [] 0 100 10 20 (1, 1, 1) (0, 0, 0) 3).add_exon
      { x1 := 5, x2 := 20, y := 10, height := 20, fill := (1, 1, 1),
        outline := (0, 0, 0), linewidth := 3 }).add_exon
    { x1 := 40, x2 := 60, y := 10, height := 20, fill := (1, 1, 1),
      outline := (0, 0, 0), linewidth := 3 }

/-- C7 (amended): for every track with n laid-out exons, draw_lines emits
exactly two line segments per adjacent pair of exons (2 * (n - 1) segments,
none before the first exon or after the last); the pair at index i consists
of (prev right edge, centre) to (midpoint, apex) and (midpoint, apex) to
(next left edge, centre), where the midpoint x and the vertical centre are
both truncated with int() (so the midpoint is the truncation of the exact
midpoint, not the exact midpoint itself), and the apex y is that truncated
centre minus a quarter of the track height. -/
theorem C7_intron_connectors (c : CDS) (i : Nat) (a b : Exon)
    (ha : c.exons.get? i = some a) (hb : c.exons.get? (i + 1) = some b) :
    c.draw_lines.length = 2 * (c.exons.length - 1)
    ∧ c.draw_lines.get? (2 * i)
        = some (.line a.x2 ((pyInt (c.y + c.height / 2) : ℤ) : ℚ)
            ((pyInt (a.x2 + (b.x1 - a.x2) / 2) : ℤ) : ℚ)
            (((pyInt (c.y + c.height / 2) : ℤ) : ℚ) - c.height / 4)
            c.outline c.linewidth)
    ∧ c.draw_lines.get? (2 * i + 1)
        = some (.line ((pyInt (a.x2 + (b.x1 - a.x2) / 2) : ℤ) : ℚ)
            (((pyInt (c.y + c.height / 2) : ℤ) : ℚ) - c.height / 4)
            b.x1 ((pyInt (c.y + c.height / 2) : ℤ) : ℚ)
            c.outline c.linewidth) := by
  have hg := lines_of_get c c.exons i a b ha hb
  refine ⟨lines_of_length c c.exons, ?_, ?_⟩
  · rw [show c.draw_lines = c.lines_of c.exons from rfl, hg.1]
    rfl
  · rw [show c.draw_lines = c.lines_of c.exons from rfl, hg.2]
    rfl

/-- C7 witness: the connector structure on the concrete two-exon track
(edges 20 and 40, centre int(10 + 20 / 2) = 20, midpoint int(20 + 10) = 30,
apex 20 - 5 = 15). -/
theorem C7_intron_connectors_witness :
    exConnCDS.draw_lines.length = 2 * (exConnCDS.exons.length - 1)
    ∧ exConnCDS.draw_lines.get? (2 * 0)
        = some (.line (20 : ℚ) ((pyInt ((10 : ℚ) + (20 : ℚ) / 2) : ℤ) : ℚ)
            ((pyInt ((20 : ℚ) + ((40 : ℚ) - (20 : ℚ)) / 2) : ℤ) : ℚ)
            (((pyInt ((10 : ℚ) + (20 : ℚ) / 2) : ℤ) : ℚ) - (20 : ℚ) / 4)
            (0, 0, 0) 3)
    ∧ exConnCDS.draw_lines.get? (2 * 0 + 1)
        = some (.line ((pyInt ((20 : ℚ) + ((40 : ℚ) - (20 : ℚ)) / 2) : ℤ) : ℚ)
            (((pyInt ((10 : ℚ) + (20 : ℚ) / 2) : ℤ) : ℚ) - (20 : ℚ) / 4)
            (40 : ℚ) ((pyInt ((10 : ℚ) + (20 : ℚ) / 2) : ℤ) : ℚ)
            (0, 0, 0) 3) :=
  C7_intron_connectors exConnCDS 0
    { x1 := 5, x2 := 20, y := 10, height := 20, fill := (1, 1, 1),
      outline := (0, 0, 0), linewidth := 3 }
    { x1 := 40, x2 := 60, y := 10, height := 20, fill := (1, 1, 1),
      outline := (0, 0, 0), linewidth := 3 }
    rfl rfl

/-- C7 counterexample: on the concrete track whose adjacent exon edges sit at
x 2 and x 5, the emitted connector peaks at x 3, not at the midpoint 7/2 of
the two edge x coordinates, so midpoint_x is not the exact midpoint. -/
theorem C7_counterexample :
    (exOddMid.make_exons).map CDS.draw_lines
      = .ok [.line 2 4 3 2 (0, 0, 0) 1, .line 3 2 5 4 (0, 0, 0) 1]
    ∧ ((3 : ℚ) ≠ (2 + 5) / 2) := by
  constructor
  · with_unfolding_all rfl
  · norm_num

/-- C8 (amended): for a track whose interval list holds exactly one
non-degenerate interval, layout succeeds and the single exon rectangle is
exactly the pixel box (the mapper runs, but its two endpoint images are the
two box edges); with a zero-width box this gives a zero-area rectangle and
no error.  A degenerate single interval (start = end) instead raises the
zero-range division error (see the counterexample). -/
theorem C8_single_interval (cid : Option String) (bx1 bx2 : ℤ) (y h : ℚ)
    (fill outline : Colour) (lw s e : ℤ) (hse : s < e) :
    (CDS.init cid [(s, e)] (bx1 : ℚ) (bx2 : ℚ) y h fill outline lw).make_exons
      = .ok { CDS.init cid [(s, e)] (bx1 : ℚ) (bx2 : ℚ) y h fill outline lw with
          exons := [(⟨(bx1 : ℚ), (bx2 : ℚ), y, h, fill, outline, lw⟩ : Exon)] } := by
  have hmin : [e].foldl min s = s := by
    simp [min_eq_left (le_of_lt hse)]
  have hmax : [e].foldl max s = e := by
    simp [max_eq_right (le_of_lt hse)]
  have hne : [e].foldl max s ≠ [e].foldl min s := by
    rw [hmin, hmax]
    omega
  rw [make_exons_eq (CDS.init cid [(s, e)] (bx1 : ℚ) (bx2 : ℚ) y h fill outline lw)
    s [e] rfl hne]
  have hx2 : mapCoord (bx1 : ℚ) ((bx2 : ℚ) - (bx1 : ℚ)) s (e - s) e = (bx2 : ℚ) := by
    rw [show ((bx2 : ℚ) - (bx1 : ℚ)) = ((bx2 - bx1 : ℤ) : ℚ) by push_cast; ring,
      mapCoord_top _ _ hse, pyInt_intCast]
    push_cast
    ring
  congr 1
  simp [CDS.init, CDS.mapped_exon, mapCoord_self, hmin, hmax, hx2]

/-- C8 counterexample: a track whose interval list holds exactly one interval
that is a single point makes layout raise the division-by-zero error rather
than succeed. -/
theorem C8_counterexample :
    (CDS.init none [(10, 10)] 0 100 0 10 (0, 0, 0) (0, 0, 0) 1).make_exons
      = .error .zeroDivisionError := by
  with_unfolding_all rfl

/-- C8 witness: a single non-degenerate interval in a zero-width pixel box
lays out with no error into a zero-area rectangle at the box position. -/
theorem C8_single_interval_witness :
    (CDS.init none [(0, 5)] ((7 : ℤ) : ℚ) ((7 : ℤ) : ℚ) 0 10 (1, 1, 1)
        (0, 0, 0) 1).make_exons
      = .ok { CDS.init none [(0, 5)] ((7 : ℤ) : ℚ) ((7 : ℤ) : ℚ) 0 10 (1, 1, 1)
            (0, 0, 0) 1 with
          exons := [(⟨((7 : ℤ) : ℚ), ((7 : ℤ) : ℚ), 0, 10, (1, 1, 1), (0, 0, 0), 1⟩ : Exon)] } :=
  C8_single_interval none 7 7 0 10 (1, 1, 1) (0, 0, 0) 1 0 5 (by decide)

/-- C9 (amended): the engine does not sort: exons are laid out in input list
order; when the input interval list is sorted ascending by start coordinate,
the laid-out exon left edges are non-decreasing in x, matching genomic start
order. -/
theorem C9_sorted_starts_order (c d : CDS)
    (hw : 0 ≤ c.width) (h0 : c.exons = [])
    (hs : c.exon_coords.Pairwise (fun p q => p.1 ≤ q.1))
    (hok : c.make_exons = .ok d) :
    (d.exons.map Exon.x1).Pairwise (· ≤ ·) := by
  cases hflat : flatCoords c.exon_coords with
  | nil =>
    unfold CDS.make_exons at hok
    rw [hflat] at hok
    cases hok
  | cons a rest =>
    by_cases hz : rest.foldl max a = rest.foldl min a
    · rw [make_exons_zero_range c a rest hflat hz] at hok
      cases hok
    · rw [make_exons_eq c a rest hflat hz] at hok
      have hd := (Except.ok.inj hok).symm
      rw [hd]
      show ((c.exons ++ (List.map (c.mapped_exon (List.foldl min a rest)
          (List.foldl max a rest - List.foldl min a rest)) c.exon_coords)).map
            Exon.x1).Pairwise (· ≤ ·)
      rw [h0, List.nil_append, List.map_map, List.pairwise_map]
      have hrng : 0 < List.foldl max a rest - List.foldl min a rest := by
        have h1 : List.foldl min a rest ≤ a := foldl_min_le_init rest a
        have h2 : a ≤ List.foldl max a rest := init_le_foldl_max rest a
        omega
      apply hs.imp_of_mem
      intro p q hp hq hpq
      have hmem : p.1 ∈ (a :: rest) := by
        rw [← hflat]
        exact fst_mem_flatCoords hp
      have hmn : List.foldl min a rest ≤ p.1 := by
        rcases List.mem_cons.mp hmem with h | h
        · rw [h]
          exact foldl_min_le_init rest a
        · exact foldl_min_le_mem a h
      exact mapCoord_mono c.x1 c.width hrng hw hmn hpq

/-- C9 counterexample: on a track whose interval list is not in ascending
start order, the laid-out left edges come out as 75 then 0, a strictly
decreasing x order, because the engine maps intervals in input order and
never sorts. -/
theorem C9_counterexample :
    (exUnsorted.make_exons).map (fun s => s.exons.map Exon.x1) = .ok [75, 0]
    ∧ ¬ ((75 : ℚ) ≤ 0) := by
  constructor
  · with_unfolding_all rfl
  · norm_num

/-- C9 witness: on the concrete sorted track, the laid-out left edges are
non-decreasing. -/
theorem C9_sorted_starts_order_witness :
    (exOddMidLaid.exons.map Exon.x1).Pairwise (· ≤ ·) :=
  C9_sorted_starts_order exOddMid exOddMidLaid (by with_unfolding_all decide)
    rfl (by decide) (by with_unfolding_all rfl)

theorem except_bind_ok {γ δ : Type} (v : γ) (f : γ → Except PyErr δ) :
    ((Except.ok v : Except PyErr γ) >>= f) = f v := rfl

theorem make_cdss_zero_range (g : CDS_group) (a : ℤ) (rest : List ℤ)
    (l : List (ℤ × ℤ)) (ls : List (List (ℤ × ℤ)))
    (hgl : g.cds_coords = l :: ls)
    (hflat : g.cds_coords.flatMap flatCoords = a :: rest)
    (hl : l ≠ [])
    (heq : rest.foldl max a = rest.foldl min a) :
    g.make_cdss [] = .error .zeroDivisionError := by
  unfold CDS_group.make_cdss
  rw [hflat]
  simp only [heq, sub_self]
  rw [hgl, List.enum_cons]
  exact foldlM_cons_error _ [] (0, l) _ _
    (by rw [mkTrack_zero_range g _ _ 0 l hl, except_map_error])

/-- C2: a degenerate source range (max_src = min_src) makes the mapping fail
with the division-by-zero error class, propagated uncaught: a track whose
coordinates are all one point k fails in make_exons with ZeroDivisionError,
and a group whose every track has identical single-point coordinates j fails
with ZeroDivisionError inside make_cdss, while the tracks are being built,
so CDS_group.draw propagates it and no diagram is produced. -/
theorem C2_zero_range_domain_error (c : CDS) (g : CDS_group)
    (measure : String → ℤ) (lb : Bool) (k j : ℤ)
    (hc0 : c.exon_coords ≠ [])
    (hck : ∀ p ∈ c.exon_coords, p.1 = k ∧ p.2 = k)
    (hg0 : g.cds_coords ≠ [])
    (hge : ∀ l ∈ g.cds_coords, l ≠ [])
    (hgk : ∀ l ∈ g.cds_coords, ∀ p ∈ l, p.1 = j ∧ p.2 = j) :
    c.make_exons = .error .zeroDivisionError
    ∧ g.make_cdss [] = .error .zeroDivisionError
    ∧ g.draw measure lb [] = .error .zeroDivisionError := by
  have hpart1 : c.make_exons = .error .zeroDivisionError := by
    obtain ⟨p, t, hpt⟩ := List.exists_cons_of_ne_nil hc0
    have hflat : flatCoords c.exon_coords = p.1 :: (p.2 :: flatCoords t) := by
      rw [hpt, flatCoords_cons]
    have hall : ∀ x ∈ flatCoords c.exon_coords, x = k := flatCoords_all_eq hck
    have hhead : p.1 = k := by
      apply hall
      rw [hflat]
      exact List.mem_cons_self _ _
    have hrest : ∀ x ∈ (p.2 :: flatCoords t), x = p.1 := by
      intro x hx
      rw [hhead]
      apply hall
      rw [hflat]
      exact List.mem_cons_of_mem _ hx
    exact make_exons_zero_range c p.1 (p.2 :: flatCoords t) hflat
      (by rw [foldl_max_all_eq hrest, foldl_min_all_eq hrest])
  have hpart2 : g.make_cdss [] = .error .zeroDivisionError := by
    obtain ⟨l, ls, hgl⟩ := List.exists_cons_of_ne_nil hg0
    have hlne : l ≠ [] := hge l (by rw [hgl]; exact List.mem_cons_self _ _)
    obtain ⟨p, t, hlp⟩ := List.exists_cons_of_ne_nil hlne
    have hflat : g.cds_coords.flatMap flatCoords
        = p.1 :: (p.2 :: (flatCoords t ++ ls.flatMap flatCoords)) := by
      rw [hgl, List.flatMap_cons, hlp, flatCoords_cons]
      rfl
    have hall : ∀ x ∈ g.cds_coords.flatMap flatCoords, x = j := by
      intro x hx
      rcases List.mem_flatMap.mp hx with ⟨m, hm, hxm⟩
      exact flatCoords_all_eq (hgk m hm) x hxm
    have hhead : p.1 = j := by
      apply hall
      rw [hflat]
      exact List.mem_cons_self _ _
    have hrest : ∀ x ∈ (p.2 :: (flatCoords t ++ ls.flatMap flatCoords)), x = p.1 := by
      intro x hx
      rw [hhead]
      apply hall
      rw [hflat]
      exact List.mem_cons_of_mem _ hx
    exact make_cdss_zero_range g p.1 _ l ls hgl hflat hlne
      (by rw [foldl_max_all_eq hrest, foldl_min_all_eq hrest])
  refine ⟨hpart1, hpart2, ?_⟩
  unfold CDS_group.draw
  rw [hpart2]
  rfl

/-- C2 witness: the degenerate-range failures at a concrete single-point
track and a concrete single-point group. -/
theorem C2_zero_range_domain_error_witness :
    (CDS.init none [(5, 5)] 0 100 0 10 (0, 0, 0) (0, 0, 0) 1).make_exons
      = .error .zeroDivisionError
    ∧ exGdeg.make_cdss [] = .error .zeroDivisionError
    ∧ exGdeg.draw (fun _ => 0) true [] = .error .zeroDivisionError :=
  C2_zero_range_domain_error
    (CDS.init none [(5, 5)] 0 100 0 10 (0, 0, 0) (0, 0, 0) 1) exGdeg
    (fun _ => 0) true 5 7
    (by decide) (by decide) (by decide) (by decide) (by decide)

/-- C3: the highlight-then-redraw scenario of example_highlight_exon.py.
The claim says redraw keeps the existing Exon list and recomputes geometry
without stomping the overridden style, so a caller override such as
recolouring exon index 2 still takes effect in the redrawn output.  What the
code actually does at this input: redraw calls make_exons, which appends a
second, freshly styled copy of every exon to self.exons instead of reusing
the five existing ones (the list doubles from 5 to 10), and draw_exons then
paints the fresh default-fill copies over the overridden ones at identical
coordinates.  The override colour (190, 186, 218) is painted exactly once,
but the last fill painted at the overridden exon rectangle (x 1481 to 1903,
y 300 to 500) is the track default (141, 211, 199): the override does not
take effect in the redrawn output, contradicting the claim and the intent of
the example script. -/
theorem C3_redraw_covers_override :
    exHighlightRedraw.map (fun p => (p.1.exons.length,
        lastFillAt p.2 1481 300 1903 500,
        (p.2.filter (fun op => op.fillOf == some (190, 186, 218))).length))
      = .ok (10, some (141, 211, 199), 1) := by
  with_unfolding_all rfl

/-- C10: every group constructed without an explicit cdss argument shares one
default list object (a Python default argument is evaluated once), modelled
by passing the shared list explicitly: after a first default-constructed
group builds its tracks l1 into the shared list, a second default
constructed group calling make_cdss receives l1 and returns l1 followed by
its own tracks l2, not only l2. -/
theorem C10_shared_default_cdss (g1 g2 : CDS_group) (l1 l2 : List CDS)
    (_h1 : g1.make_cdss [] = .ok l1) (h2 : g2.make_cdss [] = .ok l2)
    (hne : l1 ≠ []) :
    g2.make_cdss l1 = .ok (l1 ++ l2) ∧ l1 ++ l2 ≠ l2 := by
  constructor
  · rw [make_cdss_acc g2 l1, h2]
    rfl
  · intro h
    have hlen := congrArg List.length h
    rw [List.length_append] at hlen
    exact hne (List.length_eq_zero.mp (by omega))

/-- C10 witness: the shared-list pollution at two concrete one-track groups:
the second make_cdss returns the first group track followed by its own. -/
theorem C10_shared_default_cdss_witness :
    exG50.make_cdss exG1cdss = .ok (exG1cdss ++ exG50cdss)
    ∧ exG1cdss ++ exG50cdss ≠ exG50cdss :=
  C10_shared_default_cdss exG1 exG50 exG1cdss exG50cdss
    (by with_unfolding_all rfl) (by with_unfolding_all rfl)
    (by with_unfolding_all decide)

/-- C4 counterexample: with margin 51 (so 0.8 * margin = 40.8 is fractional)
and a 10 pixel label, the code expands the canvas on the right by
51 - int(800 - (759.2 + 10)) = 51 - 30 = 21 pixels (final width 821), while
the amount the claim words give,
max(0, margin - (canvas_width - (label_x + max_label_width))) = 101/5
= 20.2, differs: the expansion is not exactly the claimed amount. -/
theorem C4_counterexample :
    exG51.draw (fun _ => 10) true [] = .ok (821, 152)
    ∧ exG51.draw (fun _ => 10) false [] = .ok (800, 152)
    ∧ spec_expansion exG51 10 = 101 / 5
    ∧ ((821 : ℚ) - 800 ≠ 101 / 5) := by
  refine ⟨?_, ?_, ?_, ?_⟩
  · with_unfolding_all rfl
  · with_unfolding_all rfl
  · unfold spec_expansion CDS_group.label_x
    simp only [exG51]
    push_cast
    rw [max_eq_right (by norm_num)]
    norm_num
  · norm_num

/-- C4 (amended): when labels are requested and at least one track has an
identifier, CDS_group.draw expands the canvas on the right by exactly
margin - int(canvas_width - (label_x + max_label_width)) pixels, the claimed
formula with the remaining gap truncated toward zero by int() (no clamping
with max 0 is applied, and none is needed: for a nonnegative margin the
amount is nonnegative, so the canvas is never narrower than the label-free
canvas); when the widest measured label exceeds the margin, the canvas is
strictly wider than the label-free canvas, by at least the overflow.  (When
labels are requested but no track has an identifier, draw instead fails with
a NameError, label_x being unbound.) -/
theorem C4_label_margin_growth (g : CDS_group) (measure : String → ℤ)
    (cdss : List CDS) (mlw grow : ℤ)
    (hm : 0 ≤ g.margin)
    (hc : g.make_cdss [] = .ok cdss)
    (hpass : cdss.foldlM (fun x c => (c.make_exons).map (fun _ => x)) () = .ok ())
    (hid : (cdss.filter (fun c => c.cds_id.isSome)) ≠ [])
    (hmlw : mlw = CDS_group.max_label_width measure true cdss)
    (hgrow : grow = g.margin - pyInt ((g.width : ℚ) - (g.label_x + (mlw : ℚ)))) :
    g.draw measure true [] = .ok (g.width + grow, g.heightOf)
    ∧ g.draw measure false [] = .ok (g.width, g.heightOf)
    ∧ 0 ≤ grow
    ∧ (g.margin < mlw → 0 < grow ∧ mlw - g.margin ≤ grow) := by
  have hmlw0 : 0 ≤ mlw := by
    rw [hmlw]
    exact max_label_width_nonneg measure true cdss
  have harg : (g.width : ℚ) - (g.label_x + (mlw : ℚ))
      = 4 * (g.margin : ℚ) / 5 - (mlw : ℚ) := by
    unfold CDS_group.label_x
    ring
  have hmQ : (0 : ℚ) ≤ (g.margin : ℚ) := by exact_mod_cast hm
  have hmlQ : (0 : ℚ) ≤ (mlw : ℚ) := by exact_mod_cast hmlw0
  refine ⟨?_, ?_, ?_, ?_⟩
  · unfold CDS_group.draw
    rw [hc, except_bind_ok, hpass, except_bind_ok]
    simp only [← hmlw, if_true]
    rw [if_neg hid, hgrow]
    simp [add_margin]
  · unfold CDS_group.draw
    rw [hc, except_bind_ok, hpass, except_bind_ok]
    simp
  · have hb : pyInt ((g.width : ℚ) - (g.label_x + (mlw : ℚ))) ≤ g.margin := by
      apply pyInt_le_intCast
      rw [harg]
      linarith
    omega
  · intro hlt
    have hb : pyInt ((g.width : ℚ) - (g.label_x + (mlw : ℚ)))
        ≤ 2 * g.margin - mlw := by
      apply pyInt_le_intCast
      rw [harg]
      push_cast
      linarith
    omega

/-- C4 witness: the concrete one-track labelled group with margin 50 and a
100 pixel label: the canvas grows from 800 to 910, an expansion of 110,
strictly more than the 50 pixel overflow of the label over the margin. -/
theorem C4_label_margin_growth_witness :
    exG50.draw (fun _ => 100) true [] = .ok (exG50.width + 110, exG50.heightOf)
    ∧ exG50.draw (fun _ => 100) false [] = .ok (exG50.width, exG50.heightOf)
    ∧ (0 : ℤ) ≤ 110
    ∧ (exG50.margin < 100 → (0 : ℤ) < 110 ∧ 100 - exG50.margin ≤ 110) :=
  C4_label_margin_growth exG50 (fun _ => 100) exG50cdss 100 110
    (by decide) (by with_unfolding_all rfl) (by with_unfolding_all rfl)
    (by with_unfolding_all decide) (by with_unfolding_all rfl)
    (by with_unfolding_all rfl)
